import Mathlib

/-!
Shallow embedding of the BrightChain block engine core: the encrypted-block
factory (TestEncryptedBlock.from), the XOR handle tuple (BlockHandleTuple),
the disk block store (DiskBlockAsyncStore), and the Shamir quorum sealing
helpers (StaticHelpersSealing).  Byte buffers are lists of naturals, JS Maps
are association lists, the filesystem is an association list from block-path
keys to file contents, and the external cryptographic primitives (checksum,
ECIES, symmetric cipher, secret sharing) are explicit function parameters.
-/

namespace BrightChain

/-- Byte buffers (Node.js Buffer) are modelled as lists of naturals. -/
abbrev Buf := List Nat

/-- ECIES overhead: 0x04 prefix, 64-byte ephemeral public key, 16-byte IV and
16-byte auth tag, 97 bytes in total (StaticHelpersECIES.eciesOverheadLength;
the constant is fixed by the spec since the helper class is outside the given
sources). -/
def eciesOverheadLength : Nat := 97

/-- Modelled from the spec: the TUPLE_SIZE constant from the constants module
(not among the given sources); the spec says it is typically 3. -/
def TUPLE_SIZE : Nat := 3

/-- A JavaScript Date: either a valid timestamp in epoch milliseconds, or an
Invalid Date as produced by new Date(undefined). -/
inductive JSDate where
  | valid (ms : Nat)
  | invalid
  deriving DecidableEq, Repr

/-- Building a JS Date from an optional timestamp argument: new Date(t) for a
present timestamp, new Date(undefined) = Invalid Date. -/
def JSDate.ofOpt : Option Nat → JSDate
  | some ms => .valid ms
  | none => .invalid

/-- The check that a date is not in the future (dateCreated ≤ now).  A JS
comparison involving an Invalid Date (NaN) is always false, so an invalid
date never counts as being in the future. -/
def JSDate.notFuture : JSDate → Nat → Bool
  | .valid ms, now => decide (ms ≤ now)
  | .invalid, _ => true

/-- Block validation failure reasons raised by TestEncryptedBlock.from. -/
inductive BlockValidationErrorType where
  | DataLengthTooShort
  | DataLengthExceedsCapacity
  deriving DecidableEq, Repr

/-- Modelled from the spec: the ChecksumMismatchError class is outside the
given sources; it is thrown as ChecksumMismatchError(computedChecksum,
checksum), and the test should-detect-data-corruption pins the field mapping:
the first constructor argument is surfaced as the error's checksum field (the
computed checksum) and the second as its expected field (the caller-supplied
checksum). -/
structure ChecksumMismatchError where
  checksum : Buf
  expected : Buf
  deriving DecidableEq, Repr

/-- The errors TestEncryptedBlock.from can throw. -/
inductive EncryptedFromError where
  | validationError (t : BlockValidationErrorType)
  | checksumMismatch (e : ChecksumMismatchError)
  deriving DecidableEq, Repr

/-- The block produced by TestEncryptedBlock.from, keeping the fields the
claims are about: the final data buffer, the stored checksum, the metadata's
lengthWithoutPadding and the creation date. -/
structure TestEncryptedBlock where
  data : Buf
  idChecksum : Buf
  lengthWithoutPadding : Nat
  dateCreated : Nat
  deriving DecidableEq, Repr

/-- The final buffer built by TestEncryptedBlock.from: a randomBytes(blockSize)
buffer (pad) into whose prefix the supplied data is copied via
data.copy(finalData, 0, 0, min(data.length, blockSize)). -/
def finalizedData (blockSize : Nat) (data pad : Buf) : Buf :=
  data.take (min data.length blockSize) ++ pad.drop (min data.length blockSize)

/-- TestEncryptedBlock.from.  The checksum function csum stands for
StaticHelpersChecksum.calculateChecksum and pad for the randomBytes(blockSize)
buffer; now models new Date() used when no dateCreated is supplied. -/
def encryptedBlockFrom (csum : Buf → Buf) (blockSize : Nat) (data : Buf)
    (checksum : Option Buf) (dateCreated : Option Nat) (actualDataLength : Option Nat)
    (pad : Buf) (now : Nat) : Except EncryptedFromError TestEncryptedBlock :=
  if data.length < eciesOverheadLength then
    .error (.validationError .DataLengthTooShort)
  else if data.length > blockSize then
    .error (.validationError .DataLengthExceedsCapacity)
  else if (match actualDataLength with
           | some adl => decide (adl > blockSize - eciesOverheadLength)
           | none => false) then
    .error (.validationError .DataLengthExceedsCapacity)
  else
    match checksum with
    | some ck =>
      if csum (finalizedData blockSize data pad) ≠ ck then
        .error (.checksumMismatch ⟨csum (finalizedData blockSize data pad), ck⟩)
      else .ok ⟨finalizedData blockSize data pad, ck,
        actualDataLength.getD (data.length - eciesOverheadLength), dateCreated.getD now⟩
    | none =>
      .ok ⟨finalizedData blockSize data pad, csum (finalizedData blockSize data pad),
        actualDataLength.getD (data.length - eciesOverheadLength), dateCreated.getD now⟩

/-- Errors raised by the BlockHandleTuple class. -/
inductive HandleTupleErrorType where
  | InvalidTupleSize
  | BlockSizeMismatch
  | NoBlocksToXor
  | BlockSizesMustMatch
  deriving DecidableEq, Repr

/-- The accumulator loop inside BlockHandleTuple.xor: starting from the first
operand's bytes, fold the remaining operands in, XORing bytewise, and fail
with BlockSizesMustMatch when an operand's length differs from the
accumulated result's length. -/
def xorLoop (result : Buf) : List Buf → Except HandleTupleErrorType Buf
  | [] => .ok result
  | current :: rest =>
    if current.length ≠ result.length then .error .BlockSizesMustMatch
    else xorLoop (List.zipWith (fun a b => a ^^^ b) result current) rest

/-- A block handle; its data field holds the bytes handle.data loads from
disk. -/
structure BlockHandle where
  blockSize : Nat
  data : Buf
  idChecksum : Buf
  deriving DecidableEq, Repr

/-- A successfully constructed tuple of handles. -/
structure BlockHandleTuple where
  handles : List BlockHandle
  deriving DecidableEq, Repr

/-- The default handle used to model the handles[0] access (only reached when
the arity check already guarantees the list is non-empty). -/
def defaultHandle : BlockHandle := ⟨0, [], []⟩

/-- The BlockHandleTuple constructor: rejects arity other than TUPLE_SIZE with
InvalidTupleSize, then mixed block sizes with BlockSizeMismatch. -/
def mkBlockHandleTuple (handles : List BlockHandle) :
    Except HandleTupleErrorType BlockHandleTuple :=
  if handles.length ≠ TUPLE_SIZE then .error .InvalidTupleSize
  else if ¬ (handles.all fun h => h.blockSize == (handles.headD defaultHandle).blockSize)
    then .error .BlockSizeMismatch
  else .ok ⟨handles⟩

/-- Error kinds raised by the DiskBlockAsyncStore. -/
inductive StoreErrorType where
  | KeyNotFound
  | BlockFileSizeMismatch
  | BlockSizeMismatch
  | BlockPathAlreadyExists
  | BlockValidationFailed
  | BlockDirectoryCreationFailed
  | NoBlocksProvided
  | StreamError
  deriving DecidableEq, Repr

/-- A raw data block: fixed-size bytes, creation date and checksum id. -/
structure RawDataBlock where
  blockSize : Nat
  data : Buf
  dateCreated : JSDate
  idChecksum : Buf
  deriving DecidableEq, Repr

/-- The store's configuration: its fixed block size. -/
structure DiskStoreCfg where
  blockSize : Nat
  deriving DecidableEq, Repr

/-- The on-disk state of the store: block path (determined injectively by the
checksum key via hex sharding) paired with the file's bytes and its creation
(birth) time. -/
abbrev FS := List (Buf × Buf × Nat)

/-- Modelled from the spec: RawDataBlock.validate (the class is outside the
given sources) recomputes the checksum over data, matches the stored
idChecksum, and rechecks the not-in-the-future date invariant. -/
def validateBlock (csum : Buf → Buf) (now : Nat) (b : RawDataBlock) : Bool :=
  (csum b.data == b.idChecksum) && b.dateCreated.notFuture now

/-- DiskBlockAsyncStore.has: existence check of the block file. -/
def storeHas (fs : FS) (key : Buf) : Bool :=
  (fs.lookup key).isSome

/-- DiskBlockAsyncStore.setData: block-size check, existing-path check,
validation, then write.  A failure returns an error and leaves the
filesystem untouched (no new FS is produced); the write records the current
time as the file's birth time. -/
def setData (csum : Buf → Buf) (store : DiskStoreCfg) (now : Nat) (fs : FS)
    (b : RawDataBlock) : Except StoreErrorType FS :=
  if b.blockSize ≠ store.blockSize then .error .BlockSizeMismatch
  else if (fs.lookup b.idChecksum).isSome then .error .BlockPathAlreadyExists
  else if ¬ validateBlock csum now b then .error .BlockValidationFailed
  else .ok ((b.idChecksum, b.data, now) :: fs)

/-- DiskBlockAsyncStore.getData: KeyNotFound when the file is absent,
BlockFileSizeMismatch when the file length differs from the store's block
size, otherwise a RawDataBlock whose creation date is the file birth time. -/
def getData (store : DiskStoreCfg) (fs : FS) (key : Buf) :
    Except StoreErrorType RawDataBlock :=
  match fs.lookup key with
  | none => .error .KeyNotFound
  | some (d, birth) =>
    if d.length ≠ store.blockSize then .error .BlockFileSizeMismatch
    else .ok ⟨store.blockSize, d, .valid birth, key⟩

/-- The destination block metadata passed to the xor operations; dateCreated
is optional (absent models a JS undefined). -/
structure BlockMetaIn where
  dateCreated : Option Nat
  deriving DecidableEq, Repr

/-- Errors surfaced by BlockHandleTuple.xor: its own HandleTupleError cases,
or the generic failed-to-store wrapper around a store error. -/
inductive TupleXorError where
  | tupleErr (e : HandleTupleErrorType)
  | storeFailed
  deriving DecidableEq, Repr

/-- BlockHandleTuple.xor: guard against an empty handle list, XOR all loaded
block data, build a RawDataBlock dated from destMeta.dateCreated when
provided and from new Date() (now) otherwise, and store it.  Returns the
updated filesystem together with the stored result block (the TS method
returns get(checksum), a lazy handle onto that same stored block). -/
def tupleXor (csum : Buf → Buf) (store : DiskStoreCfg) (fs : FS)
    (t : BlockHandleTuple) (destMeta : BlockMetaIn) (now : Nat) :
    Except TupleXorError (FS × RawDataBlock) :=
  match t.handles with
  | [] => .error (.tupleErr .NoBlocksToXor)
  | h0 :: rest =>
    match xorLoop h0.data (rest.map fun h => h.data) with
    | .error e => .error (.tupleErr e)
    | .ok result =>
      match setData csum store now fs
          ⟨h0.blockSize, result,
           (match destMeta.dateCreated with
            | some ms => .valid ms
            | none => .valid now),
           csum result⟩ with
      | .error _ => .error .storeFailed
      | .ok fs2 =>
        .ok (fs2,
          ⟨h0.blockSize, result,
           (match destMeta.dateCreated with
            | some ms => .valid ms
            | none => .valid now),
           csum result⟩)

/-- DiskBlockAsyncStore.xor: guard against an empty block list, stream the
blocks through the XOR and checksum transforms (the XorMultipleTransformStream
is outside the given sources and is modelled from the spec as the bytewise
XOR of the operands, with stream errors propagated), and build the result
block with new Date(destBlockMetadata.dateCreated) - there is no fallback to
the current time, so an absent date yields an Invalid Date. -/
def diskXor (csum : Buf → Buf) (store : DiskStoreCfg) (blocks : List BlockHandle)
    (destMeta : BlockMetaIn) : Except StoreErrorType RawDataBlock :=
  match blocks with
  | [] => .error .NoBlocksProvided
  | b0 :: rest =>
    match xorLoop b0.data (rest.map fun h => h.data) with
    | .error _ => .error .StreamError
    | .ok result =>
      .ok ⟨store.blockSize, result, JSDate.ofOpt destMeta.dateCreated, csum result⟩

/-- Errors raised by StaticHelpersSealing. -/
inductive SealingErrorType where
  | NotEnoughMembersToUnlock
  | TooManyMembersToUnlock
  | InvalidMemberArray
  | MissingPrivateKeys
  | EncryptedShareNotFound
  | MemberNotFound
  | InvalidBitRange
  | FailedToSeal
  deriving DecidableEq, Repr

/-- StaticHelpersSealing.MinimumShares. -/
def MinimumShares : Nat := 2

/-- StaticHelpersSealing.MaximumShares. -/
def MaximumShares : Nat := 1048575

/-- The secret-sharing field width chosen by reinitSecrets:
max(3, ceil(log2(maxShares))). -/
def secretsBits (maxShares : Nat) : Nat := max 3 (Nat.clog 2 maxShares)

/-- StaticHelpersSealing.reinitSecrets succeeds exactly when maxShares lies in
[MinimumShares, MaximumShares] and the derived bit width lies in [3, 20]. -/
def reinitOk (maxShares : Nat) : Bool :=
  decide (MinimumShares ≤ maxShares) && decide (maxShares ≤ MaximumShares)
    && decide (3 ≤ secretsBits maxShares) && decide (secretsBits maxShares ≤ 20)

/-- A BrightChain member, reduced to the fields the sealing helpers read: id
(asShortHexGuid), public key, private key and the privateKeyLoaded flag. -/
structure BrightChainMember where
  id : Nat
  publicKey : Nat
  privateKey : Nat
  privateKeyLoaded : Bool
  deriving DecidableEq, Repr

/-- QuorumDataRecord; the encryptedSharesByMemberId JS Map is an insertion
ordered association list from member id to encrypted share. -/
structure QuorumDataRecord (C : Type) where
  agentId : Nat
  memberIds : List Nat
  sharesRequired : Nat
  encryptedData : C
  encryptedSharesByMemberId : List (Nat × String)
  deriving DecidableEq, Repr

/-- JS Map.set on the association-list model: replace in place when the key
is present, append otherwise. -/
def mapSet (m : List (Nat × String)) (k : Nat) (v : String) : List (Nat × String) :=
  if (m.lookup k).isSome then m.map (fun p => if p.1 = k then (k, v) else p)
  else m ++ [(k, v)]

/-- The loop body of encryptSharesForMembers: for each (memberId, share) pair
in order, find the member carrying that id in the full member list, ECIES
encrypt the share under the found member's public key and store it in the map
under the found member's id. -/
def encryptSharesLoop (eenc : Nat → String → String) (members : List BrightChainMember)
    (acc : List (Nat × String)) :
    List (Nat × String) → Except SealingErrorType (List (Nat × String))
  | [] => .ok acc
  | (mid, sh) :: rest =>
    match members.find? (fun v => v.id == mid) with
    | none => .error .MemberNotFound
    | some mem =>
      encryptSharesLoop eenc members (mapSet acc mem.id (eenc mem.publicKey sh)) rest

/-- StaticHelpersSealing.encryptSharesForMembers. -/
def encryptSharesForMembers (eenc : Nat → String → String) (shares : List String)
    (members : List BrightChainMember) :
    Except SealingErrorType (List (Nat × String)) :=
  if shares.length ≠ members.length then .error .NotEnoughMembersToUnlock
  else encryptSharesLoop eenc members [] ((members.map (fun m => m.id)).zip shares)

/-- StaticHelpersSealing.quorumSeal.  Abstract primitive parameters:
symEncrypt models symmetricEncryptJson (value to hex key string and
ciphertext; the key is represented directly by its hex string, matching
key.toString(hex) in the source), eenc models StaticHelpersECIES.encrypt and
share models secrets.share(keyHex, numShares, threshold). -/
def quorumSeal {V C : Type} (symEncrypt : V → String × C) (eenc : Nat → String → String)
    (share : String → Nat → Nat → List String) (agent : BrightChainMember) (v : V)
    (amongstMembers : List BrightChainMember) (sharesRequired : Option Nat) :
    Except SealingErrorType (QuorumDataRecord C) :=
  if amongstMembers.length < MinimumShares then .error .NotEnoughMembersToUnlock
  else if amongstMembers.length > MaximumShares then .error .TooManyMembersToUnlock
  else if sharesRequired.getD amongstMembers.length < MinimumShares
      ∨ sharesRequired.getD amongstMembers.length > amongstMembers.length then
    .error .NotEnoughMembersToUnlock
  else if ¬ reinitOk amongstMembers.length then .error .InvalidBitRange
  else
    match encryptSharesForMembers eenc
        (share (symEncrypt v).1 amongstMembers.length
          (sharesRequired.getD amongstMembers.length))
        amongstMembers with
    | .error e => .error e
    | .ok m =>
      .ok ⟨agent.id, amongstMembers.map (fun mm => mm.id),
        sharesRequired.getD amongstMembers.length, (symEncrypt v).2, m⟩

/-- The per-member loop of decryptShares: look the encrypted share up by the
member's id (EncryptedShareNotFound when missing) and ECIES decrypt it with
the member's private key, in member order. -/
def decryptSharesLoop (edec : Nat → String → String) {C : Type}
    (doc : QuorumDataRecord C) :
    List BrightChainMember → Except SealingErrorType (List String)
  | [] => .ok []
  | m :: rest =>
    match doc.encryptedSharesByMemberId.lookup m.id with
    | none => .error .EncryptedShareNotFound
    | some enc =>
      match decryptSharesLoop edec doc rest with
      | .error e => .error e
      | .ok tl => .ok (edec m.privateKey enc :: tl)

/-- StaticHelpersSealing.decryptShares. -/
def decryptShares (edec : Nat → String → String) {C : Type} (doc : QuorumDataRecord C)
    (membersWithPrivateKey : List BrightChainMember) :
    Except SealingErrorType (List String) :=
  if membersWithPrivateKey.length < doc.sharesRequired then
    .error .NotEnoughMembersToUnlock
  else if ¬ membersWithPrivateKey.all (fun m => m.privateKeyLoaded) then
    .error .MissingPrivateKeys
  else decryptSharesLoop edec doc membersWithPrivateKey

/-- StaticHelpersSealing.quoromUnsealWithShares: reinitialize the secret
sharing with the original member count (the map's size), combine the shares,
and symmetric-decrypt; any failure in the try block surfaces as FailedToSeal.
sdec models symmetricDecryptJson and combine models secrets.combine. -/
def quoromUnsealWithShares {V C : Type} (sdec : C → String → Option V)
    (combine : List String → String) (doc : QuorumDataRecord C)
    (recoveredShares : List String) : Except SealingErrorType V :=
  if ¬ reinitOk doc.encryptedSharesByMemberId.length then .error .FailedToSeal
  else
    match sdec doc.encryptedData (combine recoveredShares) with
    | none => .error .FailedToSeal
    | some v => .ok v

/-- StaticHelpersSealing.quorumUnseal. -/
def quorumUnseal {V C : Type} (edec : Nat → String → String)
    (sdec : C → String → Option V) (combine : List String → String)
    (doc : QuorumDataRecord C) (membersWithPrivateKey : List BrightChainMember) :
    Except SealingErrorType V :=
  if membersWithPrivateKey.length < doc.sharesRequired then
    .error .NotEnoughMembersToUnlock
  else
    match decryptShares edec doc membersWithPrivateKey with
    | .error e => .error e
    | .ok shs => quoromUnsealWithShares sdec combine doc shs

/-! ## Helper lemmas for the XOR loop -/

/-- Any error raised by the xor accumulator loop is BlockSizesMustMatch. -/
lemma xorLoop_error_eq (rest : List Buf) :
    ∀ (result : Buf) (e : HandleTupleErrorType), xorLoop result rest = .error e →
      e = .BlockSizesMustMatch := by
  induction rest with
  | nil => intro result e h; simp [xorLoop] at h
  | cons cur rs ih =>
    intro result e h
    rw [xorLoop] at h
    split at h
    · cases h; rfl
    · exact ih _ _ h

/-- When every remaining operand has the accumulator's length, the loop
succeeds and preserves the length. -/
lemma xorLoop_ok_of_lengths (rest : List Buf) :
    ∀ (result : Buf), (∀ x ∈ rest, x.length = result.length) →
      ∃ r, xorLoop result rest = .ok r ∧ r.length = result.length := by
  induction rest with
  | nil => intro result _; exact ⟨result, rfl, rfl⟩
  | cons cur rs ih =>
    intro result h
    have hc : cur.length = result.length := h cur (by simp)
    have hzl : (List.zipWith (fun a b => a ^^^ b) result cur).length = result.length := by
      simp [hc]
    obtain ⟨r, hr, hrl⟩ := ih (List.zipWith (fun a b => a ^^^ b) result cur)
      (fun x hx => by rw [h x (by simp [hx]), hzl])
    refine ⟨r, ?_, hrl.trans hzl⟩
    rw [xorLoop, if_neg (by omega)]
    exact hr

/-- A length mismatch against the first operand makes the loop fail with
BlockSizesMustMatch. -/
lemma xorLoop_error_of_mismatch (rest : List Buf) :
    ∀ (result : Buf), (∃ x ∈ rest, x.length ≠ result.length) →
      xorLoop result rest = .error .BlockSizesMustMatch := by
  induction rest with
  | nil => intro result h; simp at h
  | cons cur rs ih =>
    intro result h
    by_cases hc : cur.length = result.length
    · obtain ⟨x, hx, hxl⟩ := h
      rcases List.mem_cons.mp hx with rfl | hmem
      · exact absurd hc hxl
      · rw [xorLoop, if_neg (by omega)]
        apply ih
        refine ⟨x, hmem, ?_⟩
        simpa [hc] using hxl
    · rw [xorLoop, if_pos hc]

/-- Bytewise double-XOR cancellation at the level of naturals. -/
lemma nat_xor_unxor (x y z : Nat) : x ^^^ y ^^^ z ^^^ y ^^^ z = x := by
  rw [Nat.xor_assoc (x ^^^ y) z y, Nat.xor_comm z y, ← Nat.xor_assoc (x ^^^ y) y z,
    Nat.xor_assoc x y y, Nat.xor_self, Nat.xor_zero, Nat.xor_assoc x z z, Nat.xor_self,
    Nat.xor_zero]

/-- Bytewise double-XOR cancellation on equal-length buffers. -/
lemma zipWith_xor_cancel (a : Buf) :
    ∀ (b c : Buf), b.length = a.length → c.length = a.length →
      List.zipWith (fun x y => x ^^^ y)
        (List.zipWith (fun x y => x ^^^ y)
          (List.zipWith (fun x y => x ^^^ y)
            (List.zipWith (fun x y => x ^^^ y) a b) c) b) c = a := by
  induction a with
  | nil => intro b c hb hc; simp [List.length_eq_zero.mp hb, List.length_eq_zero.mp hc]
  | cons x xs ih =>
    intro b c hb hc
    cases b with
    | nil => simp at hb
    | cons y ys =>
      cases c with
      | nil => simp at hc
      | cons z zs =>
        simp only [List.zipWith_cons_cons]
        refine congrArg₂ List.cons (nat_xor_unxor x y z) ?_
        exact ih ys zs (by simpa using hb) (by simpa using hc)

/-! ## Claims C4, C9, C10 -/

/-- C4: XORing the tuple result again with the same operands recovers the
first operand bytewise (XOR(XOR(a,b,c),b,c) = a), the XOR result's length
equals the operands' length, and an operand whose loaded length differs from
the first operand's makes the loop fail with BlockSizesMustMatch. -/
theorem claim_C4_xor_involution :
    (∀ a b c : Buf, b.length = a.length → c.length = a.length →
      ∃ r, xorLoop a [b, c] = .ok r ∧ r.length = a.length ∧ xorLoop r [b, c] = .ok a) ∧
    (∀ (first : Buf) (rest : List Buf), (∃ x ∈ rest, x.length ≠ first.length) →
      xorLoop first rest = .error .BlockSizesMustMatch) := by
  constructor
  · intro a b c hb hc
    have h1 : (List.zipWith (fun x y => x ^^^ y) a b).length = a.length := by simp [hb]
    have h2 : (List.zipWith (fun x y => x ^^^ y)
        (List.zipWith (fun x y => x ^^^ y) a b) c).length = a.length := by simp [hb, hc]
    refine ⟨List.zipWith (fun x y => x ^^^ y) (List.zipWith (fun x y => x ^^^ y) a b) c,
      ?_, h2, ?_⟩
    · rw [xorLoop, if_neg (by omega), xorLoop, if_neg (by omega), xorLoop]
    · rw [xorLoop, if_neg (by simp [h2, hb]), xorLoop, if_neg (by simp [h2, hb, hc]), xorLoop]
      exact congrArg Except.ok (zipWith_xor_cancel a b c hb hc)
  · intro first rest h
    exact xorLoop_error_of_mismatch rest first h

/-- C4 witness: a concrete successful 3-way XOR round trip, and a concrete
length mismatch rejected with BlockSizesMustMatch. -/
theorem claim_C4_xor_involution_witness :
    (∃ r, xorLoop [1, 2] [[3, 4], [5, 6]] = .ok r ∧ r.length = 2 ∧
      xorLoop r [[3, 4], [5, 6]] = .ok [1, 2]) ∧
    xorLoop [1, 2] [[3, 4, 5]] = .error .BlockSizesMustMatch := by
  constructor
  · have h := claim_C4_xor_involution.1 [1, 2] [3, 4] [5, 6] (by decide) (by decide)
    simpa using h
  · exact claim_C4_xor_involution.2 [1, 2] [[3, 4, 5]] ⟨[3, 4, 5], by simp, by decide⟩

/-- C9: the BlockHandleTuple constructor fails with InvalidTupleSize exactly
on non-TUPLE_SIZE arity, fails with BlockSizeMismatch on TUPLE_SIZE handles
of mixed block sizes, and succeeds exactly when the arity is TUPLE_SIZE and
every handle's blockSize equals the first handle's. -/
theorem claim_C9_tuple_constructor (hs : List BlockHandle) :
    (hs.length ≠ TUPLE_SIZE → mkBlockHandleTuple hs = .error .InvalidTupleSize) ∧
    (hs.length = TUPLE_SIZE →
      (∃ h ∈ hs, h.blockSize ≠ (hs.headD defaultHandle).blockSize) →
      mkBlockHandleTuple hs = .error .BlockSizeMismatch) ∧
    ((∃ t, mkBlockHandleTuple hs = .ok t) ↔
      (hs.length = TUPLE_SIZE ∧
        ∀ h ∈ hs, h.blockSize = (hs.headD defaultHandle).blockSize)) := by
  refine ⟨?_, ?_, ?_⟩
  · intro h
    rw [mkBlockHandleTuple, if_pos h]
  · rintro hlen ⟨h, hmem, hne⟩
    have hall : ¬ ((hs.all fun x => x.blockSize == (hs.headD defaultHandle).blockSize) = true) := by
      simp only [List.all_eq_true, beq_iff_eq]
      intro hforall
      exact hne (hforall h hmem)
    rw [mkBlockHandleTuple, if_neg (by omega), if_pos hall]
  · constructor
    · rintro ⟨t, ht⟩
      rw [mkBlockHandleTuple] at ht
      by_cases h1 : hs.length ≠ TUPLE_SIZE
      · rw [if_pos h1] at ht
        exact absurd ht (by simp)
      · rw [if_neg h1] at ht
        by_cases h2 : (hs.all fun x => x.blockSize == (hs.headD defaultHandle).blockSize) = true
        · exact ⟨by omega, fun h hmem => beq_iff_eq.mp (List.all_eq_true.mp h2 h hmem)⟩
        · rw [if_pos h2] at ht
          exact absurd ht (by simp)
    · rintro ⟨hlen, hall⟩
      have hall2 : (hs.all fun x => x.blockSize == (hs.headD defaultHandle).blockSize) = true := by
        simp only [List.all_eq_true, beq_iff_eq]
        exact hall
      refine ⟨⟨hs⟩, ?_⟩
      rw [mkBlockHandleTuple, if_neg (by omega), if_neg (not_not_intro hall2)]

/-- C9 witness: a 2-handle array is rejected with InvalidTupleSize, three
same-size handles are accepted, and three mixed-size handles are rejected
with BlockSizeMismatch. -/
theorem claim_C9_tuple_constructor_witness :
    mkBlockHandleTuple [⟨1, [], []⟩, ⟨1, [], []⟩] = .error .InvalidTupleSize ∧
    mkBlockHandleTuple [⟨1, [], []⟩, ⟨2, [], []⟩, ⟨1, [], []⟩] = .error .BlockSizeMismatch ∧
    (∃ t, mkBlockHandleTuple [⟨1, [], []⟩, ⟨1, [], []⟩, ⟨1, [], []⟩] = .ok t) := by
  refine ⟨?_, ?_, ?_⟩
  · exact (claim_C9_tuple_constructor _).1 (by decide)
  · exact (claim_C9_tuple_constructor _).2.1 (by decide)
      ⟨⟨2, [], []⟩, by simp, by decide⟩
  · exact ((claim_C9_tuple_constructor _).2.2).mpr ⟨by decide, by decide⟩

/-- C10: every tuple produced by the constructor holds exactly TUPLE_SIZE
handles, and xor on such a tuple never fails with NoBlocksToXor: that guard
is unreachable. -/
theorem claim_C10_noBlocksToXor_unreachable (hs : List BlockHandle) (t : BlockHandleTuple)
    (h : mkBlockHandleTuple hs = .ok t) :
    t.handles.length = TUPLE_SIZE ∧
    ∀ (csum : Buf → Buf) (store : DiskStoreCfg) (fs : FS) (destMeta : BlockMetaIn)
      (now : Nat),
      tupleXor csum store fs t destMeta now ≠ .error (.tupleErr .NoBlocksToXor) := by
  unfold mkBlockHandleTuple at h
  by_cases h1 : hs.length ≠ TUPLE_SIZE
  case pos =>
    rw [if_pos h1] at h
    exact absurd h (by simp)
  case neg =>
    rw [if_neg h1] at h
    by_cases h2 : (hs.all fun x => x.blockSize == (hs.headD defaultHandle).blockSize) = true
    case neg =>
      rw [if_pos h2] at h
      exact absurd h (by simp)
    case pos =>
    rw [if_neg (not_not_intro h2)] at h
    have hts : t = ⟨hs⟩ := by cases h; rfl
    subst hts
    have hlen : hs.length = TUPLE_SIZE := by omega
    refine ⟨hlen, ?_⟩
    intro csum store fs destMeta now
    cases hs with
    | nil => simp [TUPLE_SIZE] at hlen
    | cons h0 rest =>
      simp only [tupleXor]
      cases hxl : xorLoop h0.data (rest.map fun x => x.data) with
      | error e =>
        have he := xorLoop_error_eq _ _ _ hxl
        subst he
        simp
      | ok result =>
        cases hsd : setData csum store now fs
            ⟨h0.blockSize, result,
             (match destMeta.dateCreated with
              | some ms => .valid ms
              | none => .valid now),
             csum result⟩ with
        | error e2 => simp [hsd]
        | ok fs2 => simp [hsd]

/-- C10 witness: a concretely constructed tuple has 3 handles and its xor
(on an empty store) does not fail with NoBlocksToXor. -/
theorem claim_C10_noBlocksToXor_unreachable_witness :
    (BlockHandleTuple.mk [⟨1, [0], [0]⟩, ⟨1, [1], [1]⟩, ⟨1, [2], [2]⟩]).handles.length
        = TUPLE_SIZE ∧
    tupleXor (fun l => l) ⟨1⟩ [] ⟨[⟨1, [0], [0]⟩, ⟨1, [1], [1]⟩, ⟨1, [2], [2]⟩]⟩ ⟨none⟩ 7
      ≠ .error (.tupleErr .NoBlocksToXor) := by
  have h := claim_C10_noBlocksToXor_unreachable
    [⟨1, [0], [0]⟩, ⟨1, [1], [1]⟩, ⟨1, [2], [2]⟩]
    ⟨[⟨1, [0], [0]⟩, ⟨1, [1], [1]⟩, ⟨1, [2], [2]⟩]⟩ rfl
  exact ⟨h.1, h.2 (fun l => l) ⟨1⟩ [] ⟨none⟩ 7⟩

/-! ## Claims C2, C7 -/

/-- C2: setData fails with BlockSizeMismatch on a block-size mismatch, with
BlockPathAlreadyExists when the target file exists, with
BlockValidationFailed when validation fails, writes only when the three
checks pass (a failure produces no new filesystem state, so nothing is
written), and a second setData of a block with the same key always fails. -/
theorem claim_C2_setData_checks (csum : Buf → Buf) (store : DiskStoreCfg) (now : Nat)
    (fs : FS) (b : RawDataBlock) :
    (b.blockSize ≠ store.blockSize →
      setData csum store now fs b = .error .BlockSizeMismatch) ∧
    (b.blockSize = store.blockSize → (fs.lookup b.idChecksum).isSome →
      setData csum store now fs b = .error .BlockPathAlreadyExists) ∧
    (b.blockSize = store.blockSize → fs.lookup b.idChecksum = none →
      validateBlock csum now b = false →
      setData csum store now fs b = .error .BlockValidationFailed) ∧
    (b.blockSize = store.blockSize → fs.lookup b.idChecksum = none →
      validateBlock csum now b = true →
      setData csum store now fs b = .ok ((b.idChecksum, b.data, now) :: fs)) ∧
    (∀ fs2, setData csum store now fs b = .ok fs2 →
      ∀ (b2 : RawDataBlock) (now2 : Nat), b2.idChecksum = b.idChecksum →
        (setData csum store now2 fs2 b2).isOk = false) := by
  refine ⟨?_, ?_, ?_, ?_, ?_⟩
  · intro h
    rw [setData, if_pos h]
  · intro h1 h2
    rw [setData, if_neg (by omega), if_pos h2]
  · intro h1 h2 h3
    rw [setData, if_neg (by omega), if_neg (by simp [h2]), if_pos (by simp [h3])]
  · intro h1 h2 h3
    rw [setData, if_neg (by omega), if_neg (by simp [h2]), if_neg (not_not_intro h3)]
  · intro fs2 hok b2 now2 hkey
    rw [setData] at hok
    by_cases h1 : b.blockSize ≠ store.blockSize
    · rw [if_pos h1] at hok
      exact absurd hok (by simp)
    · rw [if_neg h1] at hok
      by_cases h2 : (fs.lookup b.idChecksum).isSome
      · rw [if_pos h2] at hok
        exact absurd hok (by simp)
      · rw [if_neg h2] at hok
        by_cases h3 : validateBlock csum now b = true
        · rw [if_neg (not_not_intro h3)] at hok
          have hfs2 : fs2 = (b.idChecksum, b.data, now) :: fs := by
            cases hok
            rfl
          subst hfs2
          rw [setData]
          by_cases h4 : b2.blockSize ≠ store.blockSize
          · rw [if_pos h4]
            rfl
          · rw [if_neg h4, if_pos ?_]
            · rfl
            · rw [hkey]
              simp [List.lookup]
        · rw [if_pos (by simp [h3])] at hok
          exact absurd hok (by simp)

/-- C2 witness: on an empty store a concrete valid block is written; writing
it again fails; a wrong-size block fails with BlockSizeMismatch; an invalid
block fails with BlockValidationFailed. -/
theorem claim_C2_setData_checks_witness :
    setData (fun l => l) ⟨2⟩ 5 [] ⟨2, [1, 2], .valid 3, [1, 2]⟩
        = .ok ([([1, 2], [1, 2], 5)]) ∧
    (setData (fun l => l) ⟨2⟩ 6 [([1, 2], [1, 2], 5)] ⟨2, [1, 2], .valid 3, [1, 2]⟩).isOk
        = false ∧
    setData (fun l => l) ⟨2⟩ 5 [] ⟨3, [1, 2], .valid 3, [1, 2]⟩
        = .error .BlockSizeMismatch ∧
    setData (fun l => l) ⟨2⟩ 5 [] ⟨2, [1, 2], .valid 3, [9, 9]⟩
        = .error .BlockValidationFailed := by
  have hc := claim_C2_setData_checks (fun l => l) ⟨2⟩ 5 [] ⟨2, [1, 2], .valid 3, [1, 2]⟩
  have hok := hc.2.2.2.1 rfl rfl (by decide)
  refine ⟨hok, ?_, ?_, ?_⟩
  · exact hc.2.2.2.2 _ hok ⟨2, [1, 2], .valid 3, [1, 2]⟩ 6 rfl
  · exact (claim_C2_setData_checks (fun l => l) ⟨2⟩ 5 [] ⟨3, [1, 2], .valid 3, [1, 2]⟩).1
      (by decide)
  · exact (claim_C2_setData_checks (fun l => l) ⟨2⟩ 5 [] ⟨2, [1, 2], .valid 3, [9, 9]⟩).2.2.1
      rfl rfl (by decide)

/-- C7: after a successful setData, has on the block's key is true and
getData returns a block whose data equals the stored block's data
byte-for-byte; getData of an absent key fails with KeyNotFound; getData of a
file whose length differs from the store's blockSize fails with
BlockFileSizeMismatch. -/
theorem claim_C7_store_roundtrip (csum : Buf → Buf) (store : DiskStoreCfg) (now : Nat)
    (fs : FS) (b : RawDataBlock) :
    (∀ fs2, setData csum store now fs b = .ok fs2 →
      storeHas fs2 b.idChecksum = true) ∧
    (∀ fs2, setData csum store now fs b = .ok fs2 → b.data.length = store.blockSize →
      ∃ blk, getData store fs2 b.idChecksum = .ok blk ∧ blk.data = b.data) ∧
    (∀ key, fs.lookup key = none → getData store fs key = .error .KeyNotFound) ∧
    (∀ key d birth, fs.lookup key = some (d, birth) → d.length ≠ store.blockSize →
      getData store fs key = .error .BlockFileSizeMismatch) := by
  have hfs2 : ∀ fs2, setData csum store now fs b = .ok fs2 →
      fs2 = (b.idChecksum, b.data, now) :: fs := by
    intro fs2 hok
    rw [setData] at hok
    by_cases h1 : b.blockSize ≠ store.blockSize
    · rw [if_pos h1] at hok
      exact absurd hok (by simp)
    · rw [if_neg h1] at hok
      by_cases h2 : (fs.lookup b.idChecksum).isSome
      · rw [if_pos h2] at hok
        exact absurd hok (by simp)
      · rw [if_neg h2] at hok
        by_cases h3 : validateBlock csum now b = true
        · rw [if_neg (not_not_intro h3)] at hok
          cases hok
          rfl
        · rw [if_pos (by simp [h3])] at hok
          exact absurd hok (by simp)
  refine ⟨?_, ?_, ?_, ?_⟩
  · intro fs2 hok
    rw [hfs2 fs2 hok]
    simp [storeHas, List.lookup]
  · intro fs2 hok hlen
    rw [hfs2 fs2 hok]
    refine ⟨⟨store.blockSize, b.data, .valid now, b.idChecksum⟩, ?_, rfl⟩
    rw [getData]
    simp only [List.lookup_cons_self]
    rw [if_neg (not_not_intro hlen)]
  · intro key h
    rw [getData, h]
  · intro key d birth h hne
    rw [getData, h]
    exact if_pos hne

/-- C7 witness: a concrete setData / has / getData round trip, a concrete
KeyNotFound and a concrete BlockFileSizeMismatch. -/
theorem claim_C7_store_roundtrip_witness :
    storeHas [([1, 2], [1, 2], 5)] [1, 2] = true ∧
    (∃ blk, getData ⟨2⟩ [([1, 2], [1, 2], 5)] [1, 2] = .ok blk ∧ blk.data = [1, 2]) ∧
    getData ⟨2⟩ [] [7] = .error .KeyNotFound ∧
    getData ⟨2⟩ [([7], [1, 2, 3], 5)] [7] = .error .BlockFileSizeMismatch := by
  have hc := claim_C7_store_roundtrip (fun l => l) ⟨2⟩ 5 [] ⟨2, [1, 2], .valid 3, [1, 2]⟩
  have hok : setData (fun l => l) ⟨2⟩ 5 [] ⟨2, [1, 2], .valid 3, [1, 2]⟩
      = .ok ([([1, 2], [1, 2], 5)]) := by rfl
  refine ⟨hc.1 _ hok, hc.2.1 _ hok rfl, ?_, ?_⟩
  · exact (claim_C7_store_roundtrip (fun l => l) ⟨2⟩ 5 [] ⟨2, [], .invalid, []⟩).2.2.1 [7] rfl
  · exact (claim_C7_store_roundtrip (fun l => l) ⟨2⟩ 5 [([7], [1, 2, 3], 5)]
      ⟨2, [], .invalid, []⟩).2.2.2 [7] [1, 2, 3] 5 rfl (by decide)

/-! ## Claims C1, C5, C6 -/

/-- Shape of the final buffer: with data no longer than the block size and a
pad of exactly the block size, the result is blockSize bytes, has data as its
prefix and the pad's tail as its suffix. -/
lemma finalizedData_spec (blockSize : Nat) (data pad : Buf)
    (hle : data.length ≤ blockSize) (hpad : pad.length = blockSize) :
    (finalizedData blockSize data pad).length = blockSize ∧
    (finalizedData blockSize data pad).take data.length = data ∧
    (finalizedData blockSize data pad).drop data.length = pad.drop data.length := by
  have hmin : min data.length blockSize = data.length := Nat.min_eq_left hle
  unfold finalizedData
  rw [hmin, List.take_length]
  refine ⟨?_, ?_, ?_⟩
  · rw [List.length_append, List.length_drop, hpad]
    omega
  · rw [List.take_append_of_le_length (le_refl data.length), List.take_length]
  · rw [List.drop_append_of_le_length (le_refl data.length), List.drop_length]
    simp

/-- C1: every block successfully produced by from has a data buffer of
exactly blockSize bytes whose prefix of length data.length equals the
supplied data byte-for-byte, whose trailing bytes come from the random
source, and whose stored idChecksum equals the checksum computed over the
final padded buffer. -/
theorem claim_C1_from_shape (csum : Buf → Buf) (blockSize : Nat) (data : Buf)
    (checksum : Option Buf) (dateCreated : Option Nat) (actualDataLength : Option Nat)
    (pad : Buf) (now : Nat) (b : TestEncryptedBlock)
    (hpad : pad.length = blockSize)
    (h : encryptedBlockFrom csum blockSize data checksum dateCreated actualDataLength
          pad now = .ok b) :
    b.data.length = blockSize ∧
    b.data.take data.length = data ∧
    b.data.drop data.length = pad.drop data.length ∧
    b.idChecksum = csum b.data := by
  unfold encryptedBlockFrom at h
  by_cases h1 : data.length < eciesOverheadLength
  · rw [if_pos h1] at h
    exact absurd h (by simp)
  · rw [if_neg h1] at h
    by_cases h2 : data.length > blockSize
    · rw [if_pos h2] at h
      exact absurd h (by simp)
    · rw [if_neg h2] at h
      have hle : data.length ≤ blockSize := by omega
      obtain ⟨hl, ht, hd⟩ := finalizedData_spec blockSize data pad hle hpad
      split at h
      · exact absurd h (by simp)
      · split at h
        · rename_i ck
          by_cases h4 : csum (finalizedData blockSize data pad) ≠ ck
          · rw [if_pos h4] at h
            exact absurd h (by simp)
          · rw [if_neg h4] at h
            have hb : b = ⟨finalizedData blockSize data pad, ck,
                actualDataLength.getD (data.length - eciesOverheadLength),
                dateCreated.getD now⟩ := by
              cases h
              rfl
            subst hb
            rw [not_not] at h4
            exact ⟨hl, ht, hd, h4.symm⟩
        · have hb : b = ⟨finalizedData blockSize data pad,
              csum (finalizedData blockSize data pad),
              actualDataLength.getD (data.length - eciesOverheadLength),
              dateCreated.getD now⟩ := by
            cases h
            rfl
          subst hb
          exact ⟨hl, ht, hd, rfl⟩

/-- C1 witness: a concrete successful from call on a 100-byte block with a
97-byte payload, pinning padding and checksum of the produced block. -/
theorem claim_C1_from_shape_witness :
    (List.replicate 100 2 : Buf).length = 100 ∧
    encryptedBlockFrom (fun l => [l.length]) 100 (List.replicate 97 1) none none none
        (List.replicate 100 2) 5
      = .ok ⟨List.replicate 97 1 ++ List.replicate 3 2, [100], 0, 5⟩ ∧
    (List.replicate 97 1 ++ List.replicate 3 2 : Buf).length = 100 ∧
    (List.replicate 97 1 ++ List.replicate 3 2 : Buf).take (List.replicate 97 1 : Buf).length
      = List.replicate 97 1 ∧
    (List.replicate 97 1 ++ List.replicate 3 2 : Buf).drop (List.replicate 97 1 : Buf).length
      = (List.replicate 100 2 : Buf).drop (List.replicate 97 1 : Buf).length ∧
    ([100] : Buf) = [(List.replicate 97 1 ++ List.replicate 3 2 : Buf).length] := by
  have hpad : (List.replicate 100 2 : Buf).length = 100 := by simp
  have h : encryptedBlockFrom (fun l => [l.length]) 100 (List.replicate 97 1) none none none
      (List.replicate 100 2) 5
      = .ok ⟨List.replicate 97 1 ++ List.replicate 3 2, [100], 0, 5⟩ := by
    rfl
  obtain ⟨h1, h2, h3, h4⟩ := claim_C1_from_shape (fun l => [l.length]) 100
    (List.replicate 97 1) none none none (List.replicate 100 2) 5
    ⟨List.replicate 97 1 ++ List.replicate 3 2, [100], 0, 5⟩ hpad h
  exact ⟨hpad, h, h1, h2, h3, h4⟩

/-- C6: from validates lengths in order - data shorter than the ECIES
overhead fails with DataLengthTooShort; otherwise data longer than the block
size fails with DataLengthExceedsCapacity; otherwise a provided
actualDataLength above blockSize - eciesOverheadLength fails with
DataLengthExceedsCapacity; inputs passing all three checks are never
rejected with a length validation error. -/
theorem claim_C6_from_length_checks (csum : Buf → Buf) (blockSize : Nat) (data : Buf)
    (checksum : Option Buf) (dateCreated : Option Nat) (actualDataLength : Option Nat)
    (pad : Buf) (now : Nat) :
    (data.length < eciesOverheadLength →
      encryptedBlockFrom csum blockSize data checksum dateCreated actualDataLength pad now
        = .error (.validationError .DataLengthTooShort)) ∧
    (eciesOverheadLength ≤ data.length → blockSize < data.length →
      encryptedBlockFrom csum blockSize data checksum dateCreated actualDataLength pad now
        = .error (.validationError .DataLengthExceedsCapacity)) ∧
    (∀ a, eciesOverheadLength ≤ data.length → data.length ≤ blockSize →
      actualDataLength = some a → blockSize - eciesOverheadLength < a →
      encryptedBlockFrom csum blockSize data checksum dateCreated actualDataLength pad now
        = .error (.validationError .DataLengthExceedsCapacity)) ∧
    (eciesOverheadLength ≤ data.length → data.length ≤ blockSize →
      (∀ a, actualDataLength = some a → a ≤ blockSize - eciesOverheadLength) →
      ∀ t, encryptedBlockFrom csum blockSize data checksum dateCreated actualDataLength
            pad now ≠ .error (.validationError t)) := by
  refine ⟨?_, ?_, ?_, ?_⟩
  · intro h1
    rw [encryptedBlockFrom.eq_def, if_pos h1]
  · intro h1 h2
    rw [encryptedBlockFrom.eq_def, if_neg (by omega), if_pos (by omega)]
  · intro a h1 h2 ha hcap
    rw [encryptedBlockFrom.eq_def, if_neg (by omega), if_neg (by omega),
      if_pos (by rw [ha]; simpa using hcap)]
  · intro h1 h2 hadl t
    rw [encryptedBlockFrom.eq_def, if_neg (by omega), if_neg (by omega), if_neg ?hcap]
    case hcap =>
      cases hoa : actualDataLength with
      | none => simp
      | some a =>
        have := hadl a hoa
        simp
        omega
    split
    · split
      · simp
      · simp
    · simp

/-- C6 witness: each of the three ordered failures on concrete inputs, and a
concrete input passing all three checks that is not length-rejected. -/
theorem claim_C6_from_length_checks_witness :
    encryptedBlockFrom (fun l => [l.length]) 100 (List.replicate 96 1) none none none
        (List.replicate 100 2) 5
      = .error (.validationError .DataLengthTooShort) ∧
    encryptedBlockFrom (fun l => [l.length]) 100 (List.replicate 101 1) none none none
        (List.replicate 100 2) 5
      = .error (.validationError .DataLengthExceedsCapacity) ∧
    encryptedBlockFrom (fun l => [l.length]) 100 (List.replicate 97 1) none none (some 4)
        (List.replicate 100 2) 5
      = .error (.validationError .DataLengthExceedsCapacity) ∧
    (∀ t, encryptedBlockFrom (fun l => [l.length]) 100 (List.replicate 97 1) none none
        (some 3) (List.replicate 100 2) 5 ≠ .error (.validationError t)) := by
  refine ⟨?_, ?_, ?_, ?_⟩
  · exact (claim_C6_from_length_checks (fun l => [l.length]) 100 (List.replicate 96 1)
      none none none (List.replicate 100 2) 5).1 (by simp [eciesOverheadLength])
  · exact (claim_C6_from_length_checks (fun l => [l.length]) 100 (List.replicate 101 1)
      none none none (List.replicate 100 2) 5).2.1 (by simp [eciesOverheadLength]) (by simp)
  · exact (claim_C6_from_length_checks (fun l => [l.length]) 100 (List.replicate 97 1)
      none none (some 4) (List.replicate 100 2) 5).2.2.1 4
      (by simp [eciesOverheadLength]) (by simp) rfl (by norm_num [eciesOverheadLength])
  · exact (claim_C6_from_length_checks (fun l => [l.length]) 100 (List.replicate 97 1)
      none none (some 3) (List.replicate 100 2) 5).2.2.2
      (by simp [eciesOverheadLength]) (by simp)
      (fun a ha => by cases ha; norm_num [eciesOverheadLength])

/-- C5: a caller-supplied checksum differing from the checksum computed over
the final padded buffer makes from fail with ChecksumMismatch whose expected
field carries the caller-supplied checksum and whose computed-checksum field
carries the checksum computed over the final buffer. -/
theorem claim_C5_checksum_mismatch (csum : Buf → Buf) (blockSize : Nat) (data : Buf)
    (ck : Buf) (dateCreated : Option Nat) (actualDataLength : Option Nat)
    (pad : Buf) (now : Nat)
    (h1 : eciesOverheadLength ≤ data.length) (h2 : data.length ≤ blockSize)
    (hadl : ∀ a, actualDataLength = some a → a ≤ blockSize - eciesOverheadLength)
    (hne : csum (finalizedData blockSize data pad) ≠ ck) :
    ∃ e, encryptedBlockFrom csum blockSize data (some ck) dateCreated actualDataLength
          pad now = .error (.checksumMismatch e) ∧
      e.expected = ck ∧ e.checksum = csum (finalizedData blockSize data pad) := by
  refine ⟨⟨csum (finalizedData blockSize data pad), ck⟩, ?_, rfl, rfl⟩
  rw [encryptedBlockFrom.eq_def, if_neg (by omega), if_neg (by omega), if_neg ?hcap]
  case hcap =>
    cases hoa : actualDataLength with
    | none => simp
    | some a =>
      have := hadl a hoa
      simp
      omega
  simp only
  rw [if_pos hne]

set_option maxRecDepth 8000 in
/-- C5 witness: a concrete from call with a wrong supplied checksum fails
with ChecksumMismatch carrying the supplied checksum as expected and the
computed one in the checksum field. -/
theorem claim_C5_checksum_mismatch_witness :
    ∃ e, encryptedBlockFrom (fun l => [l.length]) 100 (List.replicate 97 1) (some [999])
          none none (List.replicate 100 2) 5 = .error (.checksumMismatch e) ∧
      e.expected = [999] ∧
      e.checksum = (fun l => [l.length]) (finalizedData 100 (List.replicate 97 1)
        (List.replicate 100 2)) := by
  exact claim_C5_checksum_mismatch (fun l => [l.length]) 100 (List.replicate 97 1) [999]
    none none (List.replicate 100 2) 5 (by simp [eciesOverheadLength]) (by simp)
    (fun a ha => by cases ha) (by decide)

/-! ## Claim C8 -/

/-- C8 counterexample: DiskBlockAsyncStore.xor with destination metadata that
carries no dateCreated produces a block whose dateCreated is an Invalid Date
(new Date(undefined)), not the current time: the claim's both-functions
fallback-to-now clause fails on the disk store's xor. -/
theorem claim_C8_counterexample :
    (diskXor (fun l => l) ⟨2⟩ [⟨2, [1, 2], [7]⟩, ⟨2, [3, 4], [8]⟩, ⟨2, [5, 6], [9]⟩]
      ⟨none⟩).map (fun blk => blk.dateCreated) = .ok JSDate.invalid ∧
    JSDate.invalid ≠ JSDate.valid 0 := by
  exact ⟨rfl, by simp⟩

/-- C8 amended: BlockHandleTuple.xor's result block is dated from
destMetadata.dateCreated when provided and from the current time otherwise,
while DiskBlockAsyncStore.xor always dates the result from
new Date(destMetadata.dateCreated) with no fallback to the current time, so
an absent date yields an Invalid Date. -/
theorem claim_C8_amended_xor_dates :
    (∀ (csum : Buf → Buf) (store : DiskStoreCfg) (fs : FS) (t : BlockHandleTuple)
      (destMeta : BlockMetaIn) (now : Nat) (fs2 : FS) (blk : RawDataBlock),
      tupleXor csum store fs t destMeta now = .ok (fs2, blk) →
      blk.dateCreated = (match destMeta.dateCreated with
        | some ms => JSDate.valid ms
        | none => JSDate.valid now)) ∧
    (∀ (csum : Buf → Buf) (store : DiskStoreCfg) (blocks : List BlockHandle)
      (destMeta : BlockMetaIn) (blk : RawDataBlock),
      diskXor csum store blocks destMeta = .ok blk →
      blk.dateCreated = JSDate.ofOpt destMeta.dateCreated) := by
  constructor
  · intro csum store fs t destMeta now fs2 blk h
    rw [tupleXor] at h
    split at h
    · exact absurd h (by simp)
    · split at h
      · exact absurd h (by simp)
      · split at h
        · exact absurd h (by simp)
        · cases h
          rfl
  · intro csum store blocks destMeta blk h
    rw [diskXor.eq_def] at h
    split at h
    · exact absurd h (by simp)
    · split at h
      · exact absurd h (by simp)
      · cases h
        rfl

/-- C8 amended witness: a concrete tuple xor dated from the metadata, a
concrete tuple xor dated from now when the metadata has no date, and a
concrete disk xor dated from the metadata. -/
theorem claim_C8_amended_xor_dates_witness :
    (∃ fs2 blk, tupleXor (fun l => l) ⟨2⟩ []
        ⟨[⟨2, [1, 2], [7]⟩, ⟨2, [3, 4], [8]⟩, ⟨2, [5, 6], [9]⟩]⟩ ⟨some 3⟩ 9
        = .ok (fs2, blk) ∧ blk.dateCreated = JSDate.valid 3) ∧
    (∃ fs2 blk, tupleXor (fun l => l) ⟨2⟩ []
        ⟨[⟨2, [1, 2], [7]⟩, ⟨2, [3, 4], [8]⟩, ⟨2, [5, 6], [9]⟩]⟩ ⟨none⟩ 9
        = .ok (fs2, blk) ∧ blk.dateCreated = JSDate.valid 9) ∧
    (∃ blk, diskXor (fun l => l) ⟨2⟩
        [⟨2, [1, 2], [7]⟩, ⟨2, [3, 4], [8]⟩, ⟨2, [5, 6], [9]⟩] ⟨some 4⟩
        = .ok blk ∧ blk.dateCreated = JSDate.ofOpt (some 4)) := by
  refine ⟨⟨[([7, 0], [7, 0], 9)], ⟨2, [7, 0], .valid 3, [7, 0]⟩, rfl, ?_⟩,
    ⟨[([7, 0], [7, 0], 9)], ⟨2, [7, 0], .valid 9, [7, 0]⟩, rfl, ?_⟩,
    ⟨⟨2, [7, 0], .valid 4, [7, 0]⟩, rfl, ?_⟩⟩
  · exact claim_C8_amended_xor_dates.1 (fun l => l) ⟨2⟩ []
      ⟨[⟨2, [1, 2], [7]⟩, ⟨2, [3, 4], [8]⟩, ⟨2, [5, 6], [9]⟩]⟩ ⟨some 3⟩ 9 _ _ rfl
  · exact claim_C8_amended_xor_dates.1 (fun l => l) ⟨2⟩ []
      ⟨[⟨2, [1, 2], [7]⟩, ⟨2, [3, 4], [8]⟩, ⟨2, [5, 6], [9]⟩]⟩ ⟨none⟩ 9 _ _ rfl
  · exact claim_C8_amended_xor_dates.2 (fun l => l) ⟨2⟩
      [⟨2, [1, 2], [7]⟩, ⟨2, [3, 4], [8]⟩, ⟨2, [5, 6], [9]⟩] ⟨some 4⟩ _ rfl

/-! ## Helper lemmas for the quorum sealing claims -/

/-- Default member used for indexed access into the member list. -/
def defaultMember : BrightChainMember := ⟨0, 0, 0, false⟩

/-- reinitSecrets succeeds for every member count within the documented
[MinimumShares, MaximumShares] range. -/
lemma reinitOk_of_range (n : Nat) (h2 : 2 ≤ n) (hmax : n ≤ 1048575) :
    reinitOk n = true := by
  have hclog : Nat.clog 2 n ≤ 20 := by
    have hle : n ≤ 2 ^ 20 := by
      norm_num
      omega
    exact (Nat.le_pow_iff_clog_le (by norm_num)).mp hle
  simp only [reinitOk, secretsBits, MinimumShares, MaximumShares, Bool.and_eq_true,
    decide_eq_true_eq]
  exact ⟨⟨⟨h2, hmax⟩, le_max_left 3 _⟩, max_le (by norm_num) hclog⟩

/-- Looking a key up in an appended association list skips a left part that
does not contain it. -/
lemma lookup_append_right (l1 l2 : List (Nat × String)) (k : Nat)
    (h : l1.lookup k = none) : (l1 ++ l2).lookup k = l2.lookup k := by
  induction l1 with
  | nil => simp
  | cons p l ih =>
    obtain ⟨k0, v0⟩ := p
    cases hbeq : (k == k0) with
    | true =>
      rw [List.lookup_cons, hbeq] at h
      simp at h
    | false =>
      rw [List.lookup_cons, hbeq] at h
      rw [List.cons_append, List.lookup_cons, hbeq]
      exact ih h

/-- Map.set appends when the key is not yet present. -/
lemma mapSet_of_absent (m : List (Nat × String)) (k : Nat) (v : String)
    (h : m.lookup k = none) : mapSet m k v = m ++ [(k, v)] := by
  rw [mapSet, if_neg (by simp [h])]

/-- With pairwise distinct ids, find? by a member's id returns that member. -/
lemma find_member_of_nodup (M : List BrightChainMember)
    (hnd : (M.map (fun m => m.id)).Nodup) (m : BrightChainMember) (hm : m ∈ M) :
    M.find? (fun v => v.id == m.id) = some m := by
  induction M with
  | nil => simp at hm
  | cons m0 Ms ih =>
    rw [List.map_cons, List.nodup_cons] at hnd
    rcases List.mem_cons.mp hm with rfl | hmem
    · simp [List.find?]
    · have hne : (m0.id == m.id) = false := by
        simp only [beq_eq_false_iff_ne, ne_eq]
        intro he
        exact hnd.1 (he ▸ List.mem_map_of_mem (fun x => x.id) hmem)
      rw [List.find?]
      rw [hne]
      exact ih hnd.2 hmem

/-- The share-encryption loop over distinct-id members builds exactly the
association list of (member id, encrypted share) pairs in order. -/
lemma encryptSharesLoop_spec (eenc : Nat → String → String) (M : List BrightChainMember) :
    ∀ (ms : List BrightChainMember) (shs : List String) (acc : List (Nat × String)),
      (∀ m ∈ ms, M.find? (fun v => v.id == m.id) = some m) →
      (∀ m ∈ ms, acc.lookup m.id = none) →
      ((ms.map (fun m => m.id)).Nodup) →
      encryptSharesLoop eenc M acc ((ms.map (fun m => m.id)).zip shs) =
        .ok (acc ++ (ms.zip shs).map (fun p => (p.1.id, eenc p.1.publicKey p.2))) := by
  intro ms
  induction ms with
  | nil =>
    intro shs acc _ _ _
    simp [encryptSharesLoop]
  | cons m ms ih =>
    intro shs acc hfind hacc hnd
    cases shs with
    | nil => simp [encryptSharesLoop]
    | cons s ss =>
      rw [List.map_cons, List.nodup_cons] at hnd
      rw [List.map_cons, List.zip_cons_cons, encryptSharesLoop]
      simp only [hfind m (List.mem_cons_self m ms)]
      rw [mapSet_of_absent acc m.id _ (hacc m (List.mem_cons_self m ms))]
      rw [ih ss (acc ++ [(m.id, eenc m.publicKey s)])
        (fun m2 hm2 => hfind m2 (List.mem_cons_of_mem m hm2))
        ?_ hnd.2]
      · simp
      · intro m2 hm2
        rw [lookup_append_right _ _ _ (hacc m2 (List.mem_cons_of_mem m hm2))]
        have hne : (m2.id == m.id) = false := by
          simp only [beq_eq_false_iff_ne, ne_eq]
          intro he
          exact hnd.1 (he ▸ List.mem_map_of_mem (fun x => x.id) hm2)
        rw [List.lookup_cons, hne]
        rfl

/-- encryptSharesForMembers over distinct-id members with one share per
member succeeds and returns the ordered association list of encrypted
shares. -/
lemma encryptSharesForMembers_spec (eenc : Nat → String → String) (shares : List String)
    (M : List BrightChainMember) (hlen : shares.length = M.length)
    (hnd : (M.map (fun m => m.id)).Nodup) :
    encryptSharesForMembers eenc shares M =
      .ok ((M.zip shares).map (fun p => (p.1.id, eenc p.1.publicKey p.2))) := by
  rw [encryptSharesForMembers, if_neg (by omega)]
  have h := encryptSharesLoop_spec eenc M M shares []
    (fun m hm => find_member_of_nodup M hnd m hm)
    (fun m _ => rfl) hnd
  rw [h]
  simp

/-- Looking up the i-th member's id in the encrypted-share map yields the
i-th encrypted share. -/
lemma lookup_shareMap (eenc : Nat → String → String) :
    ∀ (M : List BrightChainMember) (shares : List String),
      (M.map (fun m => m.id)).Nodup → shares.length = M.length →
      ∀ i, i < M.length →
        ((M.zip shares).map (fun p => (p.1.id, eenc p.1.publicKey p.2))).lookup
            (M.getD i defaultMember).id =
          some (eenc (M.getD i defaultMember).publicKey (shares.getD i "")) := by
  intro M
  induction M with
  | nil =>
    intro shares _ _ i hi
    simp at hi
  | cons m Ms ih =>
    intro shares hnd hlen i hi
    cases shares with
    | nil => simp at hlen
    | cons s ss =>
      rw [List.map_cons, List.nodup_cons] at hnd
      cases i with
      | zero =>
        simp [List.lookup_cons]
      | succ j =>
        have hj : j < Ms.length := by
          rw [List.length_cons] at hi
          omega
        have hmem : Ms.getD j defaultMember ∈ Ms := by
          rw [List.getD_eq_getElem?_getD, List.getElem?_eq_getElem hj, Option.getD_some]
          exact List.getElem_mem hj
        have hne : ((Ms.getD j defaultMember).id == m.id) = false := by
          simp only [beq_eq_false_iff_ne, ne_eq]
          intro he
          exact hnd.1 (he ▸ List.mem_map_of_mem (fun x => x.id) hmem)
        rw [List.zip_cons_cons, List.map_cons, List.getD_cons_succ,
          List.getD_cons_succ, List.lookup_cons, hne]
        exact ih ss hnd.2 (by simpa using hlen) j hj

/-- The share-decryption loop over a list of member indices returns, in
order, the decryptions of the shares looked up by each indexed member's
id. -/
lemma decryptSharesLoop_on_indices (edec : Nat → String → String) {C : Type}
    (doc : QuorumDataRecord C) (M : List BrightChainMember) (sh : Nat → String) :
    ∀ idxs : List Nat,
      (∀ i ∈ idxs,
        doc.encryptedSharesByMemberId.lookup (M.getD i defaultMember).id = some (sh i)) →
      decryptSharesLoop edec doc (idxs.map (fun i => M.getD i defaultMember)) =
        .ok (idxs.map (fun i => edec (M.getD i defaultMember).privateKey (sh i))) := by
  intro idxs
  induction idxs with
  | nil =>
    intro _
    simp [decryptSharesLoop]
  | cons i is ih =>
    intro h
    rw [List.map_cons, decryptSharesLoop, h i (List.mem_cons_self i is),
      ih (fun i2 hi2 => h i2 (List.mem_cons_of_mem i hi2))]
    rfl

/-- quorumUnseal fails immediately with NotEnoughMembersToUnlock when fewer
members than the record's sharesRequired are supplied. -/
lemma quorumUnseal_lt {V C : Type} (edec : Nat → String → String)
    (sdec : C → String → Option V) (combine : List String → String)
    (doc : QuorumDataRecord C) (ms : List BrightChainMember)
    (h : ms.length < doc.sharesRequired) :
    quorumUnseal edec sdec combine doc ms = .error .NotEnoughMembersToUnlock := by
  rw [quorumUnseal, if_pos h]

/-- Successful evaluation of quorumUnseal: enough members, all keys loaded,
a successful share-decryption loop, a valid reinit and a successful final
decryption produce the decrypted value. -/
lemma quorumUnseal_ok {V C : Type} (edec : Nat → String → String)
    (sdec : C → String → Option V) (combine : List String → String)
    (doc : QuorumDataRecord C) (ms : List BrightChainMember) (shs : List String) (v : V)
    (hge : ¬ ms.length < doc.sharesRequired)
    (hall : ms.all (fun m => m.privateKeyLoaded) = true)
    (hloop : decryptSharesLoop edec doc ms = .ok shs)
    (hreOk : reinitOk doc.encryptedSharesByMemberId.length = true)
    (hdec : sdec doc.encryptedData (combine shs) = some v) :
    quorumUnseal edec sdec combine doc ms = .ok v := by
  rw [quorumUnseal, if_neg hge, decryptShares, if_neg hge,
    if_neg (not_not_intro hall), hloop]
  show quoromUnsealWithShares sdec combine doc shs = .ok v
  rw [quoromUnsealWithShares, if_neg (not_not_intro hreOk), hdec]

/-! ## Claim C3 -/

/-- C3: for every value, member list and threshold accepted by quorumSeal
(with the abstract cryptographic primitives satisfying their contracts:
ECIES decryption inverts encryption per member, secrets.combine recovers the
secret from any at-least-threshold selection of distinct shares, and
symmetric decryption inverts encryption), unsealing the returned record with
any subset of the members of size at least the threshold whose members all
have private keys loaded returns the sealed value, and unsealing with fewer
than the threshold fails with NotEnoughMembersToUnlock. -/
theorem claim_C3_quorum_roundtrip {V C : Type}
    (symEncrypt : V → String × C) (eenc edec : Nat → String → String)
    (share : String → Nat → Nat → List String) (combine : List String → String)
    (sdec : C → String → Option V)
    (agent : BrightChainMember) (v : V) (M : List BrightChainMember) (t : Nat)
    (hnd : (M.map (fun m => m.id)).Nodup)
    (h2 : MinimumShares ≤ M.length) (hmax : M.length ≤ MaximumShares)
    (ht2 : MinimumShares ≤ t) (htn : t ≤ M.length)
    (hsharelen : (share (symEncrypt v).1 M.length t).length = M.length)
    (hecies : ∀ (m : BrightChainMember) (s : String),
      edec m.privateKey (eenc m.publicKey s) = s)
    (hcombine : ∀ idxs : List Nat, idxs.Nodup → (∀ i ∈ idxs, i < M.length) →
      t ≤ idxs.length →
      combine (idxs.map (fun i => (share (symEncrypt v).1 M.length t).getD i "")) =
        (symEncrypt v).1)
    (hsym : sdec (symEncrypt v).2 (symEncrypt v).1 = some v) :
    ∃ rec, quorumSeal symEncrypt eenc share agent v M (some t) = .ok rec ∧
      rec.sharesRequired = t ∧
      (∀ idxs : List Nat, idxs.Nodup → (∀ i ∈ idxs, i < M.length) →
        t ≤ idxs.length →
        (∀ i ∈ idxs, (M.getD i defaultMember).privateKeyLoaded = true) →
        quorumUnseal edec sdec combine rec
          (idxs.map (fun i => M.getD i defaultMember)) = .ok v) ∧
      (∀ ms2 : List BrightChainMember, ms2.length < t →
        quorumUnseal edec sdec combine rec ms2 = .error .NotEnoughMembersToUnlock) := by
  have h2n : 2 ≤ M.length := h2
  have hmaxn : M.length ≤ 1048575 := hmax
  have hreinit : reinitOk M.length = true := reinitOk_of_range M.length h2n hmaxn
  have hesm := encryptSharesForMembers_spec eenc (share (symEncrypt v).1 M.length t) M
    hsharelen hnd
  have hSMlen : ((M.zip (share (symEncrypt v).1 M.length t)).map
      (fun p => (p.1.id, eenc p.1.publicKey p.2))).length = M.length := by
    simp [hsharelen]
  refine ⟨⟨agent.id, M.map (fun mm => mm.id), t,
    (symEncrypt v).2,
    (M.zip (share (symEncrypt v).1 M.length t)).map
      (fun p => (p.1.id, eenc p.1.publicKey p.2))⟩, ?_, rfl, ?_, ?_⟩
  · rw [quorumSeal, if_neg (by omega), if_neg (by omega)]
    simp only [Option.getD_some]
    rw [if_neg (by omega), if_neg (not_not_intro hreinit), hesm]
  · intro idxs hndIdx hbound htlen hload
    have hmaplen : (idxs.map (fun i => M.getD i defaultMember)).length = idxs.length :=
      List.length_map _ _
    have hall : (idxs.map (fun i => M.getD i defaultMember)).all
        (fun m => m.privateKeyLoaded) = true := by
      rw [List.all_eq_true]
      intro x hx
      obtain ⟨i, hi, rfl⟩ := List.mem_map.mp hx
      exact hload i hi
    have hloop := decryptSharesLoop_on_indices edec
      (⟨agent.id, M.map (fun mm => mm.id), t, (symEncrypt v).2,
        (M.zip (share (symEncrypt v).1 M.length t)).map
          (fun p => (p.1.id, eenc p.1.publicKey p.2))⟩ : QuorumDataRecord C) M
      (fun i => eenc (M.getD i defaultMember).publicKey
        ((share (symEncrypt v).1 M.length t).getD i "")) idxs
      (fun i hi => lookup_shareMap eenc M (share (symEncrypt v).1 M.length t) hnd
        hsharelen i (hbound i hi))
    refine quorumUnseal_ok edec sdec combine _ _
      (idxs.map (fun i => (share (symEncrypt v).1 M.length t).getD i "")) v
      (show ¬ (idxs.map (fun i => M.getD i defaultMember)).length < t by
        rw [hmaplen]; omega)
      hall ?_ (show reinitOk ((M.zip (share (symEncrypt v).1 M.length t)).map
          (fun p => (p.1.id, eenc p.1.publicKey p.2))).length = true by
        rw [hSMlen]; exact hreinit) ?_
    · rw [hloop]
      simp only [hecies]
    · show sdec (symEncrypt v).2
        (combine (idxs.map (fun i => (share (symEncrypt v).1 M.length t).getD i ""))) = some v
      rw [hcombine idxs hndIdx hbound htlen, hsym]
  · intro ms2 hlt
    exact quorumUnseal_lt edec sdec combine _ ms2 hlt

/-- C3 witness: a concrete two-member quorum with threshold 2 and trivial
instantiations of the cryptographic primitives seals successfully, unseals to
the sealed value with both members, and fails with NotEnoughMembersToUnlock
for a single member. -/
theorem claim_C3_quorum_roundtrip_witness :
    ∃ rec, quorumSeal (fun x : Nat => ("K", x)) (fun _ s => s)
        (fun s n _ => List.replicate n s) ⟨9, 0, 0, true⟩ 42
        [⟨1, 10, 20, true⟩, ⟨2, 11, 21, true⟩] (some 2) = .ok rec ∧
      quorumUnseal (fun _ b => b) (fun (c : Nat) k => if k = "K" then some c else none)
        (fun l => l.headD "") rec
        ([0, 1].map (fun i => [(⟨1, 10, 20, true⟩ : BrightChainMember),
          ⟨2, 11, 21, true⟩].getD i defaultMember)) = .ok 42 ∧
      quorumUnseal (fun _ b => b) (fun (c : Nat) k => if k = "K" then some c else none)
        (fun l => l.headD "") rec [⟨1, 10, 20, true⟩]
        = .error .NotEnoughMembersToUnlock := by
  obtain ⟨rec, hseal, hsr, hok, hlt⟩ := claim_C3_quorum_roundtrip
    (fun x : Nat => ("K", x)) (fun _ s => s) (fun _ b => b)
    (fun s n _ => List.replicate n s) (fun l => l.headD "")
    (fun (c : Nat) k => if k = "K" then some c else none)
    ⟨9, 0, 0, true⟩ 42 [⟨1, 10, 20, true⟩, ⟨2, 11, 21, true⟩] 2
    (by decide) (by decide) (by decide) (by decide) (by decide)
    (by simp)
    (fun m s => rfl)
    (by
      intro idxs hndIdx hb hlen
      cases idxs with
      | nil => simp at hlen
      | cons i is =>
        have hi : i < 2 := hb i (List.mem_cons_self i is)
        interval_cases i
        · rfl
        · rfl)
    (by simp)
  exact ⟨rec, hseal, hok [0, 1] (by decide) (by decide) (by decide) (by decide),
    hlt [⟨1, 10, 20, true⟩] (by decide)⟩

end BrightChain
